import Mathlib

/-!
Shallow embedding of the `mvcs` multi-video-clipping system
(`mvcs/config.py`, `mvcs/job.py`), for checking the natural-language
specification against the code.

Modelling conventions:
* Python strings are modelled as lists of Unicode codepoints (`Str := List Nat`);
  `str "..."` converts a Lean string literal.
* Python `pathlib.Path` values are modelled as their string form (no
  normalization; none of the checked properties depends on it).
* `datetime.datetime` is a civil-calendar record; `datetime.timedelta` is an
  integer number of seconds (all durations produced by the program are whole
  seconds).
* `str.casefold()` is modelled as ASCII lowering (full Unicode folding is out
  of scope of the embedding).
* Fallible code returns `Except Str`; error-message text is abbreviated since
  no checked property inspects it.
-/

namespace Mvcs

/-- Python strings, as lists of Unicode codepoints. -/
abbrev Str := List Nat

/-- Convert a Lean string literal to the codepoint-list model. -/
def str (s : String) : Str := s.data.map Char.toNat

/-- Recursion core of `listReplace`, structural on a fuel argument so that it
evaluates inside the kernel; correct whenever `s.length ≤ fuel` (each step
consumes at least one character of `s`). -/
def listReplaceAux (k v : Str) : Nat → Str → Str
  | _, [] => []
  | 0, s => s
  | fuel + 1, c :: rest =>
    if k.isPrefixOf (c :: rest) then
      v ++ listReplaceAux k v fuel (List.drop (k.length - 1) rest)
    else
      c :: listReplaceAux k v fuel rest

/-- Python `target.replace(key, value)` for a non-empty `key`: scan left to
right, replacing each non-overlapping occurrence of `key` by `value`.  The
program only ever calls this with non-empty keys (`Replace.from_dict` and the
`-r` argument parser both reject empty keys); for `k = []` this model is the
identity. -/
def listReplace (k v s : Str) : Str :=
  if k = [] then s else listReplaceAux k v s.length s

/-- `mvcs.config.Replace`: an insertion-ordered string→string mapping
(Python `dict` preserves insertion order). -/
abbrev Replace := List (Str × Str)

/-- `Replace.apply` (config.py:30-34): apply each (key, value) pair in
insertion order to the current, possibly already-modified, string. -/
def Replace.apply (r : Replace) (target : Str) : Str :=
  r.foldl (fun t kv => listReplace kv.1 kv.2 t) target

/-- Python `dict.__setitem__` on an insertion-ordered mapping: overwriting an
existing key keeps its position, a new key is appended. -/
def dictSet (r : Replace) (k v : Str) : Replace :=
  if r.any (fun kv => kv.1 == k) then
    r.map (fun kv => if kv.1 == k then (k, v) else kv)
  else
    r ++ [(k, v)]

/-- Recursion core of `natDigits`, structural on a fuel argument so that it
evaluates inside the kernel; correct whenever the digit count of `n` is at
most `fuel + 1` (so `fuel := n` always suffices). -/
def natDigitsAux : Nat → Nat → Str
  | 0, n => [48 + n % 10]
  | fuel + 1, n =>
    if n < 10 then [48 + n] else natDigitsAux fuel (n / 10) ++ [48 + n % 10]

/-- Decimal digits of a natural number, as codepoints. -/
def natDigits (n : Nat) : Str := natDigitsAux n n

/-- Zero-pad the decimal form of `n` to at least `w` digits. -/
def padNat (w : Nat) (n : Nat) : Str :=
  List.replicate (w - (natDigits n).length) 48 ++ natDigits n

/-- Zero-padded decimal rendering of an integer (sign prefixed for negatives;
the program only formats in-range datetime fields, which are non-negative). -/
def intPad (w : Nat) (i : Int) : Str :=
  if i < 0 then 45 :: padNat w i.natAbs else padNat w i.toNat

/-- Python `datetime.datetime`, restricted to the fields the program formats
(no timezone; sub-second precision unused). -/
structure DateTime where
  year : Int
  month : Int
  day : Int
  hour : Int
  minute : Int
  second : Int
deriving DecidableEq, Repr

/-- Days from civil date (proleptic Gregorian; Euclidean division, which
agrees with the usual truncating formulation on the adjusted operands). -/
def daysFromCivil (y m d : Int) : Int :=
  let y' := y - (if m ≤ 2 then 1 else 0)
  let era := Int.ediv y' 400
  let yoe := y' - era * 400
  let mp := m + (if m > 2 then (-3 : Int) else 9)
  let doy := Int.ediv (153 * mp + 2) 5 + d - 1
  let doe := yoe * 365 + Int.ediv yoe 4 - Int.ediv yoe 100 + doy
  era * 146097 + doe - 719468

/-- Civil date from days since the Unix epoch. -/
def civilFromDays (z0 : Int) : Int × Int × Int :=
  let z := z0 + 719468
  let era := Int.ediv z 146097
  let doe := z - era * 146097
  let yoe := Int.ediv (doe - Int.ediv doe 1460 + Int.ediv doe 36524 - Int.ediv doe 146096) 365
  let y := yoe + era * 400
  let doy := doe - (365 * yoe + Int.ediv yoe 4 - Int.ediv yoe 100)
  let mp := Int.ediv (5 * doy + 2) 153
  let d := doy - Int.ediv (153 * mp + 2) 5 + 1
  let m := mp + (if mp < 10 then 3 else -9)
  (y + (if m ≤ 2 then 1 else 0), m, d)

/-- Seconds since the Unix epoch of a `DateTime`. -/
def DateTime.toEpochSeconds (dt : DateTime) : Int :=
  daysFromCivil dt.year dt.month dt.day * 86400
    + dt.hour * 3600 + dt.minute * 60 + dt.second

/-- `DateTime` from seconds since the Unix epoch (floor division, as in
Python's `divmod`-based datetime normalization). -/
def DateTime.ofEpochSeconds (t : Int) : DateTime :=
  let days := Int.ediv t 86400
  let sod := Int.emod t 86400
  let ymd := civilFromDays days
  { year := ymd.1, month := ymd.2.1, day := ymd.2.2,
    hour := Int.ediv sod 3600,
    minute := Int.ediv (Int.emod sod 3600) 60,
    second := Int.emod sod 60 }

/-- Python `datetime + timedelta` (the timedelta in whole seconds). -/
def DateTime.addSeconds (dt : DateTime) (delta : Int) : DateTime :=
  DateTime.ofEpochSeconds (dt.toEpochSeconds + delta)

/-- Python `datetime.strftime`, for the directives the program uses
(`%Y %m %d %H %M %S %%`); an unrecognized directive is passed through. -/
def strftime (dt : DateTime) : Str → Str
  | [] => []
  | 37 :: c :: rest =>
    (if c = 89 then intPad 4 dt.year
     else if c = 109 then intPad 2 dt.month
     else if c = 100 then intPad 2 dt.day
     else if c = 72 then intPad 2 dt.hour
     else if c = 77 then intPad 2 dt.minute
     else if c = 83 then intPad 2 dt.second
     else if c = 37 then [37]
     else [37, c]) ++ strftime dt rest
  | c :: rest => c :: strftime dt rest

/-- Python `str.casefold`, modelled as ASCII lowering (codepoint-wise). -/
def casefoldChar (c : Nat) : Nat :=
  if 65 ≤ c ∧ c ≤ 90 then c + 32 else c

/-- Python `str.casefold` / `str.lower` over the whole string (ASCII model). -/
def casefold (s : Str) : Str := s.map casefoldChar

/-- Python whitespace (the characters `str.strip` removes by default). -/
def isSpaceChar (c : Nat) : Bool :=
  c == 32 || c == 9 || c == 10 || c == 13 || c == 11 || c == 12

/-- Python `str.strip()`. -/
def strip (s : Str) : Str :=
  ((s.dropWhile isSpaceChar).reverse.dropWhile isSpaceChar).reverse

/-- Python `s.split(sep, maxsplit=1)` for a single-character separator: the
part before the first separator, and (when the separator occurs) the rest. -/
def splitOnce (sep : Nat) : Str → Str × Option Str
  | [] => ([], none)
  | c :: rest =>
    if c == sep then ([], some rest)
    else
      let p := splitOnce sep rest
      (c :: p.1, p.2)

/-- Python `s.split(sep)` for a single-character separator (full split;
`"".split(sep) = [""]`). -/
def splitAll (sep : Nat) : Str → List Str
  | [] => [[]]
  | c :: rest =>
    let p := splitAll sep rest
    if c == sep then [] :: p
    else
      match p with
      | [] => [[c]]
      | x :: xs => (c :: x) :: xs

/-- Is `s` a non-empty string of ASCII decimal digits? -/
def isDigits (s : Str) : Bool :=
  !s.isEmpty && s.all (fun c => 48 ≤ c && c ≤ 57)

/-- Numeric value of a string of ASCII decimal digits. -/
def digitsVal (s : Str) : Nat :=
  s.foldl (fun a c => a * 10 + (c - 48)) 0

/-- Modelled from the spec: `mvcs.time.timedelta_from_str` (`mvcs/time.py` is
not in the provided sources).  Per spec 4.1, accepts `[[H:]MM:]SS` where each
component is a non-negative integer with no leading sign, or a bare integer
number of seconds; fails on non-numeric components, too many `:`-separated
parts, or empty input.  Result is the duration in seconds. -/
def timedelta_from_str (s : Str) : Option Int :=
  match splitAll 58 s with
  | [ss] => if isDigits ss then some (digitsVal ss) else none
  | [mm, ss] =>
    if isDigits mm && isDigits ss then
      some (digitsVal mm * 60 + digitsVal ss)
    else none
  | [hh, mm, ss] =>
    if isDigits hh && isDigits mm && isDigits ss then
      some (digitsVal hh * 3600 + digitsVal mm * 60 + digitsVal ss)
    else none
  | _ => none

/-- Modelled from the spec: `mvcs.time.timedelta_to_path_str` (`mvcs/time.py`
is not in the provided sources).  Per spec 4.1 and the section-8 end-to-end
example, renders a duration as `H-MM-SS` with zero-padded minutes and seconds
(`0 ↦ "0-00-00"`); a negative duration is rendered with a leading sign (the
spec does not constrain negatives; no checked property depends on them). -/
def timedelta_to_path_str (t : Int) : Str :=
  let n := t.natAbs
  (if t < 0 then [45] else [])
    ++ natDigits (n / 3600) ++ [45] ++ padNat 2 (n % 3600 / 60) ++ [45]
    ++ padNat 2 (n % 60)

/-- Modelled from the spec: `mvcs.time.datetime_from_str` (`mvcs/time.py` is
not in the provided sources).  Per spec 4.1, parses exactly the ISO-like
`YYYY-MM-DDTHH:MM:SS` form and fails otherwise. -/
def datetime_from_str (s : Str) : Option DateTime :=
  match s with
  | [y1, y2, y3, y4, 45, o1, o2, 45, d1, d2, 84, h1, h2, 58, i1, i2, 58, s1, s2] =>
    if isDigits [y1, y2, y3, y4] && isDigits [o1, o2] && isDigits [d1, d2]
        && isDigits [h1, h2] && isDigits [i1, i2] && isDigits [s1, s2] then
      some
        { year := digitsVal [y1, y2, y3, y4], month := digitsVal [o1, o2],
          day := digitsVal [d1, d2], hour := digitsVal [h1, h2],
          minute := digitsVal [i1, i2], second := digitsVal [s1, s2] }
    else none
  | _ => none

/-- Python `Path.__truediv__`: join with a `/` separator. -/
def pathJoin (a b : Str) : Str := a ++ [47] ++ b

/-- Index after the last occurrence of `c` in `s`, or `0` if absent. -/
def lastIndexAfter (c : Nat) (s : Str) : Nat :=
  (List.range s.length).foldl
    (fun acc i => if s.getD i 0 == c then i + 1 else acc) 0

/-- Python `Path.with_suffix(suf)`: replace the suffix of the final path
component (the part from its last `.`, provided that dot is neither the
component's first nor last character) by `suf`, or append `suf` when the
component has no suffix. -/
def withSuffix (p : Str) (suf : Str) : Str :=
  let nameStart := lastIndexAfter 47 p
  let name := p.drop nameStart
  let dotIdx := (List.range name.length).foldl
    (fun acc i => if name.getD i 0 == 46 then some i else acc) none
  match dotIdx with
  | some i =>
    if 0 < i ∧ i + 1 < name.length then p.take (nameStart + i) ++ suf
    else p ++ suf
  | none => p ++ suf

/-- `mvcs.config.Subcommand` (config.py:108-117). -/
inductive Subcommand where
  | CLIP
  | HELP
  | RUN
deriving DecidableEq, Repr

/-- `mvcs.config.Prefs` (config.py:36-53): user preferences.  Paths are kept
in their string form. -/
structure Prefs where
  filename_replace : Replace := []
  job_path : Str := str "clip.yaml"
  output_dir : Str := str "."
  output_ext : Str := str "mkv"
  video_dir : Str := str "."
  video_ext : Str := str "mkv"
  video_filename_format : Str := str "%Y-%m-%d %H-%M-%S"
deriving DecidableEq, Repr

/-- The hard-coded preference defaults (`Prefs()`). -/
def Prefs.defaults : Prefs := {}

/-- `mvcs.config.Config` (config.py:119-138): command-line configuration. -/
structure Config where
  job_path : Str
  filename_replace : Replace
  output_dir : Str
  output_ext : Str
  video_dir : Str
  video_ext : Str
  video_filename_format : Str
  subcommand : Subcommand := Subcommand.HELP
deriving DecidableEq, Repr

/-- `Config.default` (config.py:140-153): a config taking every field from
the preferences (the replacement map is copied — value semantics here). -/
def Config.default (prefs : Prefs) : Config :=
  { job_path := prefs.job_path,
    filename_replace := prefs.filename_replace,
    output_dir := prefs.output_dir,
    output_ext := prefs.output_ext,
    video_dir := prefs.video_dir,
    video_ext := prefs.video_ext,
    video_filename_format := prefs.video_filename_format }

/-- `mvcs.job.Clip` (job.py:15-24).  The Python field `end` is named `endT`
here (`end` is a Lean keyword); `start` is `startT` for symmetry. -/
structure Clip where
  endT : Int
  startT : Int
  title : Str
deriving DecidableEq, Repr

/-- The fixed forbidden-filename-character set of `Clip.path_str`
(job.py:64): `" * / : ? \ | < >`. -/
def forbiddenChars : Str := str "\"*/:?\\|<>"

/-- `Clip.path_str` (job.py:47-69): the destination file name for a clip.
The joined, case-folded string is run through one sequential replacement
chain: first each forbidden character to `-`, then the configured
replacement map, exactly as the `itertools.chain` loop does. -/
def Clip.path_str (clip : Clip) (config : Config) (date : DateTime)
    (epoch : Int) (title : Str) : Str :=
  let joined := List.intercalate (str " - ")
    [strftime (date.addSeconds epoch) (str "%Y-%m-%d %H:%M:%S"),
     str "T+" ++ timedelta_to_path_str (clip.startT - epoch),
     title,
     clip.title]
  let folded := casefold joined
  let pairs := forbiddenChars.map (fun bad => ([bad], str "-"))
    ++ config.filename_replace
  let replaced := pairs.foldl (fun s kv => listReplace kv.1 kv.2 s) folded
  List.intercalate (str ".") [replaced, config.output_ext]

/-- Written from the spec's words (4.3 `destination_filename`, claim C2), to
be compared with `Clip.path_str`: join the four segments with `" - "`,
case-fold, replace each character of the forbidden set by `-`
(characterwise), apply the caller-supplied replacement map, and append `.`
plus the configured output extension. -/
def specDestinationFilename (clip : Clip) (config : Config) (date : DateTime)
    (epoch : Int) (title : Str) : Str :=
  let d := date.addSeconds epoch
  let datePart := intPad 4 d.year ++ str "-" ++ intPad 2 d.month ++ str "-"
    ++ intPad 2 d.day ++ str " " ++ intPad 2 d.hour ++ str ":"
    ++ intPad 2 d.minute ++ str ":" ++ intPad 2 d.second
  let joined := List.intercalate (str " - ")
    [datePart, str "T+" ++ timedelta_to_path_str (clip.startT - epoch),
     title, clip.title]
  let sanitized := (casefold joined).map
    (fun c => if c ∈ forbiddenChars then 45 else c)
  Replace.apply config.filename_replace sanitized ++ str "." ++ config.output_ext

/-! ### The command-line layer: `getopt` and `Config.from_argv` -/

/-- The short-option specification `"hi:j:o:r:"` (config.py:168). -/
def shortopts : Str := str "hi:j:o:r:"

/-- The long-option specification (config.py:168-177). -/
def longopts : List Str :=
  [str "filename-replace=", str "help", str "job-path=", str "output-dir=",
   str "output-ext=", str "video-dir=", str "video-ext=",
   str "video-filename-format="]

/-- Python `getopt.short_has_arg`: whether short option `c` takes an argument
(the following specification character is `:`); `none` models the
unknown-option GetoptError. -/
def shortHasArg (c : Nat) : Str → Option Bool
  | [] => none
  | o :: rest =>
    if c == o && !(o == 58) then some (rest.head? == some 58)
    else shortHasArg c rest

/-- Python `getopt.long_has_args`: resolve a (possibly abbreviated) long
option against the specification; returns whether it takes an argument and
its full name. -/
def longHasArgs (opt : Str) (longs : List Str) : Except Str (Bool × Str) :=
  let possibilities := longs.filter (fun o => opt.isPrefixOf o)
  if possibilities.isEmpty then .error (str "option not recognized")
  else if possibilities.contains opt then .ok (false, opt)
  else if possibilities.contains (opt ++ [61]) then .ok (true, opt)
  else if decide (1 < possibilities.length) then
    .error (str "option not a unique prefix")
  else
    match possibilities with
    | [unique] =>
      if unique.getLast? == some 61 then .ok (true, unique.dropLast)
      else .ok (false, unique)
    | _ => .error (str "option not recognized")

/-- Python `getopt.do_longs`, refactored to report whether the next argv
element was consumed as the option argument (instead of returning the
remaining argv list). -/
def doLongs (optStr : Str) (next? : Option Str) :
    Except Str ((Str × Str) × Bool) :=
  let p := splitOnce 61 optStr
  match longHasArgs p.1 longopts with
  | .error e => .error e
  | .ok (hasArg, opt) =>
    match p.2 with
    | some arg =>
      if hasArg then .ok ((str "--" ++ opt, arg), false)
      else .error (str "option must not have an argument")
    | none =>
      if hasArg then
        match next? with
        | some a => .ok ((str "--" ++ opt, a), true)
        | none => .error (str "option requires argument")
      else .ok ((str "--" ++ opt, []), false)

/-- Python `getopt.do_shorts`, refactored likewise: process one cluster of
short options, reporting whether the next argv element was consumed. -/
def doShorts : Str → Option Str → Except Str (List (Str × Str) × Bool)
  | [], _ => .ok ([], false)
  | c :: rest, next? =>
    match shortHasArg c shortopts with
    | none => .error (str "option not recognized")
    | some true =>
      if rest.isEmpty then
        match next? with
        | some a => .ok ([([45, c], a)], true)
        | none => .error (str "option requires argument")
      else .ok ([([45, c], rest)], false)
    | some false =>
      match doShorts rest next? with
      | .error e => .error e
      | .ok (os, consumed) => .ok (([45, c], []) :: os, consumed)

/-- Python `getopt.getopt` (non-GNU: option processing stops at the first
non-option argument), structural on a fuel argument; each step consumes at
least one argv element, so `fuel := args.length` suffices and the `0`
fallback is unreachable. -/
def getoptAux : Nat → List Str → Except Str (List (Str × Str) × List Str)
  | _, [] => .ok ([], [])
  | 0, args => .ok ([], args)
  | fuel + 1, a :: rest =>
    if !(str "-").isPrefixOf a || a == str "-" then .ok ([], a :: rest)
    else if a == str "--" then .ok ([], rest)
    else if (str "--").isPrefixOf a then
      match doLongs (a.drop 2) rest.head? with
      | .error e => .error e
      | .ok (opt, consumed) =>
        match getoptAux fuel (if consumed then rest.drop 1 else rest) with
        | .error e => .error e
        | .ok (opts, args) => .ok (opt :: opts, args)
    else
      match doShorts (a.drop 1) rest.head? with
      | .error e => .error e
      | .ok (newOpts, consumed) =>
        match getoptAux fuel (if consumed then rest.drop 1 else rest) with
        | .error e => .error e
        | .ok (opts, args) => .ok (newOpts ++ opts, args)

/-- `getopt.getopt(argv[1:], "hi:j:o:r:", longopts)` as called at
config.py:168. -/
def getopt (args : List Str) : Except Str (List (Str × Str) × List Str) :=
  getoptAux args.length args

/-- The subcommand lookup table of `Config.from_argv` (config.py:181-188). -/
def subcommandOf (s : Str) : Option Subcommand :=
  if s == str "clip" then some .CLIP
  else if s == str "help" then some .HELP
  else if s == str "run" then some .RUN
  else none

/-- The branch selected by the `if/elif` chain of the option loop of
`Config.from_argv` (config.py:191-238); decoding the branch first keeps the
embedding's case analyses tractable while preserving the chain's conditions
and order exactly. -/
inductive OptKind where
  | help
  | videoDir
  | jobPath
  | outputDir
  | filenameReplace
  | outputExt
  | videoExt
  | videoFilenameFormat
  | other
deriving DecidableEq, Repr

/-- The condition chain of the option loop (config.py:192-237). -/
def optKind (opt : Str) : OptKind :=
  if opt == str "-h" || opt == str "--help" then .help
  else if opt == str "-i" || opt == str "--video-dir" then .videoDir
  else if opt == str "-j" || opt == str "--job-path" then .jobPath
  else if opt == str "-o" || opt == str "--output-dir" then .outputDir
  else if opt == str "-r" || opt == str "--filename-replace" then .filenameReplace
  else if opt == str "--output-ext" then .outputExt
  else if opt == str "--video-ext" then .videoExt
  else if opt == str "--video-filename-format" then .videoFilenameFormat
  else .other

/-- One iteration of the option loop of `Config.from_argv`
(config.py:191-238). -/
def applyOpt (prefs : Prefs) (config : Config) (opt optarg : Str) :
    Except Str Config :=
  match optKind opt with
  | .help => .ok { config with subcommand := .HELP }
  | .videoDir =>
    if !optarg.isEmpty then .ok { config with video_dir := optarg }
    else .error (str "video directory path cannot be empty")
  | .jobPath =>
    if !optarg.isEmpty then .ok { config with job_path := optarg }
    else .error (str "job path cannot be empty")
  | .outputDir =>
    if !optarg.isEmpty then .ok { config with output_dir := optarg }
    else .error (str "output clip directory cannot be empty")
  | .filenameReplace =>
    if !optarg.isEmpty then
      if (str "==").isPrefixOf optarg then
        let m := dictSet config.filename_replace (str "=") (optarg.drop 2)
        .ok { config with filename_replace := m }
      else if (str "=").isPrefixOf optarg then
        .error (str "invalid replacement")
      else if optarg.contains 61 then
        let m := dictSet config.filename_replace (splitOnce 61 optarg).1
          ((splitOnce 61 optarg).2.getD [])
        .ok { config with filename_replace := m }
      else .error (str "invalid replacement")
    else
      .ok { config with filename_replace := prefs.filename_replace }
  | .outputExt =>
    if !optarg.isEmpty then .ok { config with output_ext := optarg }
    else .error (str "output extension cannot be empty")
  | .videoExt =>
    if !optarg.isEmpty then .ok { config with video_ext := optarg }
    else .error (str "video extension cannot be empty")
  | .videoFilenameFormat =>
    if !optarg.isEmpty then .ok { config with video_filename_format := optarg }
    else .error (str "video filename format cannot be empty")
  | .other => .error (str "unhandled option")

/-- The option loop of `Config.from_argv` (config.py:191-238). -/
def applyOpts (prefs : Prefs) : List (Str × Str) → Config → Except Str Config
  | [], config => .ok config
  | (o, a) :: rest, config =>
    match applyOpt prefs config o a with
    | .error e => .error e
    | .ok config' => applyOpts prefs rest config'

/-- The subcommand resolution of `Config.from_argv` (config.py:181-189): the
first positional argument, lower-cased, selects the subcommand; further
positional arguments are silently ignored. -/
def subcommandStage (config : Config) (args : List Str) : Except Str Config :=
  match args with
  | [] => .ok config
  | a :: _ =>
    match subcommandOf (casefold a) with
    | some sc => .ok { config with subcommand := sc }
    | none => .error (str "invalid subcommand")

/-- `Config.from_argv` (config.py:155-240): default config from preferences,
subcommand from the first positional argument, then the option loop. -/
def Config.from_argv (argv : List Str) (prefs : Prefs) : Except Str Config :=
  match getopt (argv.drop 1) with
  | .error e => .error e
  | .ok (opts, args) =>
    match subcommandStage (Config.default prefs) args with
    | .error e => .error e
    | .ok config' => applyOpts prefs opts config'

/-- No ASCII uppercase letter occurs in the string (the embedding's reading
of "fully lower-cased", matching the ASCII casefold model). -/
def NoUpper (s : Str) : Prop := ∀ c ∈ s, ¬ (65 ≤ c ∧ c ≤ 90)

instance (s : Str) : Decidable (NoUpper s) :=
  inferInstanceAs (Decidable (∀ c ∈ s, ¬ (65 ≤ c ∧ c ≤ 90)))

/-! ### The heap-instrumented command-line layer (for the aliasing claim)

Python `Replace` values are mutable `dict` objects on a heap; `Config.default`
copies the preferences' map (config.py:147) and the `-r` reset copies it again
(config.py:221), so the resolved config never aliases the preferences' map.
To state that frame property, this second rendering of `Config.from_argv`
passes an explicit store of `Replace` objects and refers to them by index;
every step mirrors the pure rendering above, plus the store effect of the
corresponding Python statement. -/

/-- A heap of `Replace` objects. -/
abbrev ReplaceStore := List Replace

/-- Dereference (out-of-range reads never occur on the traced runs). -/
def storeGet (st : ReplaceStore) (r : Nat) : Replace := st.getD r []

/-- In-place mutation of one `Replace` object. -/
def storeSet (st : ReplaceStore) (r : Nat) (m : Replace) : ReplaceStore :=
  st.set r m

/-- `Prefs` with its replacement map held by reference into the store. -/
structure PrefsH where
  filename_replace : Nat
  job_path : Str := str "clip.yaml"
  output_dir : Str := str "."
  output_ext : Str := str "mkv"
  video_dir : Str := str "."
  video_ext : Str := str "mkv"
  video_filename_format : Str := str "%Y-%m-%d %H-%M-%S"
deriving DecidableEq, Repr

/-- `Config` with its replacement map held by reference into the store. -/
structure ConfigH where
  job_path : Str
  filename_replace : Nat
  output_dir : Str
  output_ext : Str
  video_dir : Str
  video_ext : Str
  video_filename_format : Str
  subcommand : Subcommand := Subcommand.HELP
deriving DecidableEq, Repr

/-- `Config.default` in the heap model: `prefs.filename_replace.copy()`
(config.py:147) allocates a fresh object holding the same mapping. -/
def ConfigH.defaultH (prefs : PrefsH) (st : ReplaceStore) :
    ConfigH × ReplaceStore :=
  (⟨prefs.job_path, st.length, prefs.output_dir, prefs.output_ext,
    prefs.video_dir, prefs.video_ext, prefs.video_filename_format,
    Subcommand.HELP⟩,
   st ++ [storeGet st prefs.filename_replace])

/-- One iteration of the option loop, heap model (config.py:191-238):
`config["filename_replace"][key] = value` mutates the config's own object in
place, and the `-r ""` reset rebinds the config to a fresh copy of the
preferences' map (config.py:221). -/
def applyOptH (prefs : PrefsH) (config : ConfigH) (st : ReplaceStore)
    (opt optarg : Str) : Except Str (ConfigH × ReplaceStore) :=
  match optKind opt with
  | .help => .ok ({ config with subcommand := .HELP }, st)
  | .videoDir =>
    if !optarg.isEmpty then .ok ({ config with video_dir := optarg }, st)
    else .error (str "video directory path cannot be empty")
  | .jobPath =>
    if !optarg.isEmpty then .ok ({ config with job_path := optarg }, st)
    else .error (str "job path cannot be empty")
  | .outputDir =>
    if !optarg.isEmpty then .ok ({ config with output_dir := optarg }, st)
    else .error (str "output clip directory cannot be empty")
  | .filenameReplace =>
    if !optarg.isEmpty then
      if (str "==").isPrefixOf optarg then
        let m := dictSet (storeGet st config.filename_replace) (str "=")
          (optarg.drop 2)
        .ok (config, storeSet st config.filename_replace m)
      else if (str "=").isPrefixOf optarg then
        .error (str "invalid replacement")
      else if optarg.contains 61 then
        let m := dictSet (storeGet st config.filename_replace)
          (splitOnce 61 optarg).1 ((splitOnce 61 optarg).2.getD [])
        .ok (config, storeSet st config.filename_replace m)
      else .error (str "invalid replacement")
    else
      .ok ({ config with filename_replace := st.length },
        st ++ [storeGet st prefs.filename_replace])
  | .outputExt =>
    if !optarg.isEmpty then .ok ({ config with output_ext := optarg }, st)
    else .error (str "output extension cannot be empty")
  | .videoExt =>
    if !optarg.isEmpty then .ok ({ config with video_ext := optarg }, st)
    else .error (str "video extension cannot be empty")
  | .videoFilenameFormat =>
    if !optarg.isEmpty then
      .ok ({ config with video_filename_format := optarg }, st)
    else .error (str "video filename format cannot be empty")
  | .other => .error (str "unhandled option")

/-- The option loop, heap model. -/
def applyOptsH (prefs : PrefsH) :
    List (Str × Str) → ConfigH → ReplaceStore →
      Except Str (ConfigH × ReplaceStore)
  | [], config, st => .ok (config, st)
  | (o, a) :: rest, config, st =>
    match applyOptH prefs config st o a with
    | .error e => .error e
    | .ok (config', st') => applyOptsH prefs rest config' st'

/-- The subcommand stage, heap model (no store effect). -/
def subcommandStageH (config : ConfigH) (args : List Str) :
    Except Str ConfigH :=
  match args with
  | [] => .ok config
  | a :: _ =>
    match subcommandOf (casefold a) with
    | some sc => .ok { config with subcommand := sc }
    | none => .error (str "invalid subcommand")

/-- `Config.from_argv`, heap model. -/
def fromArgvH (argv : List Str) (prefs : PrefsH) (st : ReplaceStore) :
    Except Str (ConfigH × ReplaceStore) :=
  match ConfigH.defaultH prefs st with
  | (config, st1) =>
    match getopt (argv.drop 1) with
    | .error e => .error e
    | .ok (opts, args) =>
      match subcommandStageH config args with
      | .error e => .error e
      | .ok config' => applyOptsH prefs opts config' st1

/-! ### Untyped YAML documents -/

/-- An untyped YAML value, as the job loader sees it.  Scalars are kept in
their `str(...)`-rendered form (claims never distinguish scalar kinds). -/
inductive Untyped where
  | s : Str → Untyped
  | list : List Untyped → Untyped
  | map : List (Str × Untyped) → Untyped

/-- An untyped mapping (insertion-ordered, unique keys). -/
abbrev UMap := List (Str × Untyped)

/-- `dict.get` / `dict.__getitem__` lookup. -/
def umLookup (m : UMap) (k : Str) : Option Untyped :=
  (m.find? (fun kv => kv.1 == k)).map (fun kv => kv.2)

mutual
/-- Python `repr` of an untyped value (quote escaping not modelled; no
checked property depends on the exact rendering of non-string values). -/
def pyRepr : Untyped → Str
  | .s v => 39 :: v ++ [39]
  | .list xs => 91 :: pyReprList xs ++ [93]
  | .map m => 123 :: pyReprMap m ++ [125]

def pyReprList : List Untyped → Str
  | [] => []
  | [x] => pyRepr x
  | x :: y :: rest => pyRepr x ++ str ", " ++ pyReprList (y :: rest)

def pyReprMap : List (Str × Untyped) → Str
  | [] => []
  | [(k, v)] => 39 :: k ++ [39] ++ str ": " ++ pyRepr v
  | (k, v) :: p :: rest =>
    39 :: k ++ [39] ++ str ": " ++ pyRepr v ++ str ", " ++ pyReprMap (p :: rest)
end

/-- Python `str(...)` of an untyped value. -/
def pyStr : Untyped → Str
  | .s v => v
  | v => pyRepr v

/-! ### The job layer: `mvcs/job.py` -/

/-- The `time`-field parse of `Clip.from_dict` (job.py:34-35): split on the
first `-`, strip and parse both halves; a lone half (no `-`) raises the
caught ValueError through tuple unpacking, and a failing half raises the
caught ValueError from the duration parser. -/
def clipParseTime (timeV : Untyped) : Option (Int × Int) :=
  match (splitOnce 45 (pyStr timeV)).2 with
  | some second =>
    match timedelta_from_str (strip (splitOnce 45 (pyStr timeV)).1),
        timedelta_from_str (strip second) with
    | some startT, some endT => some (startT, endT)
    | _, _ => none
  | none => none

/-- The post-lookup validation of `Clip.from_dict` (job.py:30-45). -/
def clipFromFields (titleV timeV : Untyped) : Except Str Clip :=
  match clipParseTime timeV with
  | none => .error (str "bad clip data")
  | some (startT, endT) =>
    if endT ≤ startT then .error (str "bad clip start/end")
    else if (pyStr titleV).isEmpty then .error (str "bad clip title")
    else .ok ⟨endT, startT, pyStr titleV⟩

/-- `Clip.from_dict` (job.py:26-45): read `title` and `time` (a missing key
is the caught KeyError), then parse and validate. -/
def Clip.from_dict (data : UMap) : Except Str Clip :=
  match umLookup data (str "title"), umLookup data (str "time") with
  | some titleV, some timeV => clipFromFields titleV timeV
  | _, _ => .error (str "bad clip data")

/-- `mvcs.job.Video` (job.py:94-105). -/
structure Video where
  date : DateTime
  title : Str
  clips : List Clip := []
  epoch : Int := 0
deriving DecidableEq, Repr

/-- Parse each clip document in order, failing on the first bad one. -/
def clipsFromDicts : List UMap → Except Str (List Clip)
  | [] => .ok []
  | d :: rest =>
    match Clip.from_dict d with
    | .error e => .error e
    | .ok c =>
      match clipsFromDicts rest with
      | .error e => .error e
      | .ok cs => .ok (c :: cs)

/-- Extract the list of maps from an untyped `clips` value, validating that
it is a list whose entries are all maps (job.py:119-125). -/
def asMapList : Untyped → Option (List UMap)
  | .list xs =>
    xs.foldr
      (fun x acc =>
        match x, acc with
        | .map m, some ms => some (m :: ms)
        | _, _ => none)
      (some [])
  | _ => none

/-- `Video.from_dict` (job.py:107-138): require `date` and `title`;
optionally read `clips` (must be a list of maps) and `epoch`.  A failing
`datetime_from_str`/`timedelta_from_str` raises an uncaught ValueError in
Python; the embedding folds it into the error result. -/
def Video.from_dict (data : UMap) : Except Str Video :=
  match umLookup data (str "date"), umLookup data (str "title") with
  | some dateV, some titleV =>
    match datetime_from_str (pyStr dateV) with
    | none => .error (str "bad video date")
    | some date =>
      let base : Video := { date := date, title := pyStr titleV }
      match
        (match umLookup data (str "clips") with
         | none => Except.ok base
         | some clipsV =>
           match asMapList clipsV with
           | none => Except.error (str "bad video data: clips")
           | some ms =>
             match clipsFromDicts ms with
             | .error e => Except.error e
             | .ok cs => Except.ok { base with clips := cs }) with
      | .error e => .error e
      | .ok v1 =>
        match umLookup data (str "epoch") with
        | none => .ok v1
        | some epochV =>
          match timedelta_from_str (pyStr epochV) with
          | none => .error (str "bad video epoch")
          | some ep => .ok { v1 with epoch := ep }
  | _, _ => .error (str "bad video data")

/-- `mvcs.job.Job` (job.py:171-180). -/
structure Job where
  output_dir : Str
  video_dir : Str
  videos : List Video := []
deriving DecidableEq, Repr

/-- Parse each video document in order, failing on the first bad one. -/
def videosFromDicts : List UMap → Except Str (List Video)
  | [] => .ok []
  | d :: rest =>
    match Video.from_dict d with
    | .error e => .error e
    | .ok v =>
      match videosFromDicts rest with
      | .error e => .error e
      | .ok vs => .ok (v :: vs)

/-- The `output-dir` resolution of `Job.from_dict` (job.py:194): the
document's value when present, else the config's. -/
def jobOutputDir (config : Config) (data : UMap) : Str :=
  match umLookup data (str "output-dir") with
  | some v => pyStr v
  | none => config.output_dir

/-- The `video-dir` resolution of `Job.from_dict` (job.py:195). -/
def jobVideoDir (config : Config) (data : UMap) : Str :=
  match umLookup data (str "video-dir") with
  | some v => pyStr v
  | none => config.video_dir

/-- The `videos` extraction of `Job.from_dict` (job.py:186-192):
`data.get("videos", [])` — absent means the empty list — validated to be a
list whose entries are all maps. -/
def jobVideosDocs (data : UMap) : Except Str (List UMap) :=
  match umLookup data (str "videos") with
  | none => .ok []
  | some videosV =>
    match asMapList videosV with
    | none => .error (str "invalid videos")
    | some ms => .ok ms

/-- `Job.from_dict` (job.py:182-201): `videos` defaults to the empty list
when absent; a present non-list value, or a non-map entry, is an error; the
directories come from the document when present, else from the config. -/
def Job.from_dict (config : Config) (data : UMap) : Except Str Job :=
  match jobVideosDocs data with
  | .error e => .error e
  | .ok ms =>
    match videosFromDicts ms with
    | .error e => .error e
    | .ok vs =>
      .ok ⟨jobOutputDir config data, jobVideoDir config data, vs⟩

/-! ### Job execution -/

/-- The observable filesystem interface of a run: `Path.is_file` for the
source check (job.py:159) and `Path.exists` for the skip check (job.py:74). -/
structure FS where
  pathIsFile : Str → Bool
  existsB : Str → Bool

/-- One ffmpeg extraction request (job.py:78-88): source path, start offset
and duration in seconds, destination path. -/
structure Request where
  src : Str
  startSec : Int
  durSec : Int
  dst : Str
deriving DecidableEq, Repr

/-- `Clip.write` (job.py:71-92): an existing destination is skipped (no
request, success); otherwise one extraction request is issued, whose outcome
the external-tool oracle decides. -/
def Clip.write (fs : FS) (ffmpegOk : Request → Bool) (clip : Clip)
    (src dst : Str) : Except Str (List Request) :=
  if fs.existsB dst then .ok []
  else
    let req : Request := ⟨src, clip.startT, clip.endT - clip.startT, dst⟩
    if ffmpegOk req then .ok [req] else .error (str "ffmpeg failed")

/-- The per-clip loop of `Video.write_clips` (job.py:162-169), collecting
the issued requests in order and failing fast. -/
def writeClipsLoop (fs : FS) (ffmpegOk : Request → Bool) (config : Config)
    (date : DateTime) (epoch : Int) (title : Str) (src dstDir : Str) :
    List Clip → Except Str (List Request)
  | [] => .ok []
  | clip :: rest =>
    match clip.write fs ffmpegOk src
        (pathJoin dstDir (clip.path_str config date epoch title)) with
    | .error e => .error e
    | .ok reqs =>
      match writeClipsLoop fs ffmpegOk config date epoch title src dstDir rest with
      | .error e => .error e
      | .ok reqs' => .ok (reqs ++ reqs')

/-- `Video.write_clips` (job.py:154-169): the source name is the replacement
map applied to the strftime-formatted date (note the order), suffixed with
the video extension; a missing source file is an error; then each clip is
written in order. -/
def Video.write_clips (fs : FS) (ffmpegOk : Request → Bool) (config : Config)
    (video : Video) (srcDir dstDir : Str) : Except Str (List Request) :=
  let srcName := Replace.apply config.filename_replace
    (strftime video.date config.video_filename_format)
  let src := withSuffix (pathJoin srcDir srcName) (str "." ++ config.video_ext)
  if !fs.pathIsFile src then .error (str "missing video file")
  else
    writeClipsLoop fs ffmpegOk config video.date video.epoch video.title
      src dstDir video.clips

/-- The per-video loop of `Job.run` (job.py:210-214). -/
def runLoop (fs : FS) (ffmpegOk : Request → Bool) (config : Config)
    (videoDir outputDir : Str) : List Video → Except Str (List Request)
  | [] => .ok []
  | v :: rest =>
    match v.write_clips fs ffmpegOk config videoDir outputDir with
    | .error e => .error e
    | .ok reqs =>
      match runLoop fs ffmpegOk config videoDir outputDir rest with
      | .error e => .error e
      | .ok reqs' => .ok (reqs ++ reqs')

/-- `Job.run` (job.py:210-214). -/
def Job.run (fs : FS) (ffmpegOk : Request → Bool) (config : Config)
    (job : Job) : Except Str (List Request) :=
  runLoop fs ffmpegOk config job.video_dir job.output_dir job.videos

/-- The source path `Video.write_clips` actually probes (job.py:157-158):
the replacement map applied to the strftime-formatted date — not the other
way around — then the video extension as suffix. -/
def Video.srcPath (config : Config) (video : Video) (srcDir : Str) : Str :=
  withSuffix
    (pathJoin srcDir
      (Replace.apply config.filename_replace
        (strftime video.date config.video_filename_format)))
    (str "." ++ config.video_ext)

deriving instance DecidableEq for Except

/-- Did the fallible computation succeed? -/
def isOkE : Except Str α → Bool
  | .ok _ => true
  | .error _ => false

/-- Written from the (amended) spec's words for C6, to be compared with
`Clip.from_dict`: a clip document is accepted exactly when `time` and
`title` are present, the time range splits on a `-` into two halves that
both parse as durations, the parsed end is strictly greater than the parsed
start, and the title is non-empty (no trimming — the amendment). -/
def clipDocAccepted (data : UMap) : Bool :=
  match umLookup data (str "title"), umLookup data (str "time") with
  | some titleV, some timeV =>
    match clipParseTime timeV with
    | some (s, e) => decide (s < e) && !(pyStr titleV).isEmpty
    | none => false
  | _, _ => false

/-! ### Lemmas about the option loop -/

/-- One option-loop step can only keep the subcommand or set it to HELP. -/
theorem applyOpt_subcommand (prefs : Prefs) (cfg cfg' : Config) (o a : Str)
    (h : applyOpt prefs cfg o a = .ok cfg') :
    cfg'.subcommand = cfg.subcommand ∨ cfg'.subcommand = Subcommand.HELP := by
  unfold applyOpt at h
  cases hk : optKind o <;> rw [hk] at h <;> repeat' split at h
  all_goals
    first
    | exact Except.noConfusion h
    | (cases h; first | (left; rfl) | (right; rfl))

/-- The `-h`/`--help` step sets the subcommand to HELP unconditionally. -/
theorem applyOpt_help (prefs : Prefs) (cfg : Config) (o a : Str)
    (ho : o = str "-h" ∨ o = str "--help") :
    applyOpt prefs cfg o a = .ok { cfg with subcommand := Subcommand.HELP } := by
  rcases ho with rfl | rfl <;> rfl

/-- The option loop never moves the subcommand away from HELP. -/
theorem applyOpts_help_preserved (prefs : Prefs) :
    ∀ (opts : List (Str × Str)) (cfg cfg' : Config),
      applyOpts prefs opts cfg = .ok cfg' →
      cfg.subcommand = Subcommand.HELP → cfg'.subcommand = Subcommand.HELP := by
  intro opts
  induction opts with
  | nil =>
    intro cfg cfg' h hh
    cases h
    exact hh
  | cons p rest ih =>
    intro cfg cfg' h hh
    obtain ⟨o, a⟩ := p
    simp only [applyOpts] at h
    cases hstep : applyOpt prefs cfg o a with
    | error e => rw [hstep] at h; exact Except.noConfusion h
    | ok cfg1 =>
      rw [hstep] at h
      rcases applyOpt_subcommand prefs cfg cfg1 o a hstep with hp | hp
      · exact ih cfg1 cfg' h (hp.trans hh)
      · exact ih cfg1 cfg' h hp

/-- If the parsed options contain `-h` or `--help`, a successful option loop
ends with subcommand HELP. -/
theorem applyOpts_help (prefs : Prefs) :
    ∀ (opts : List (Str × Str)) (cfg cfg' : Config),
      applyOpts prefs opts cfg = .ok cfg' →
      (∃ x, (str "-h", x) ∈ opts ∨ (str "--help", x) ∈ opts) →
      cfg'.subcommand = Subcommand.HELP := by
  intro opts
  induction opts with
  | nil =>
    intro cfg cfg' _ hmem
    rcases hmem with ⟨x, hx | hx⟩ <;> simp at hx
  | cons p rest ih =>
    intro cfg cfg' h hmem
    obtain ⟨o, a⟩ := p
    simp only [applyOpts] at h
    cases hstep : applyOpt prefs cfg o a with
    | error e => rw [hstep] at h; exact Except.noConfusion h
    | ok cfg1 =>
      rw [hstep] at h
      rcases hmem with ⟨x, hx | hx⟩
      · rcases List.mem_cons.mp hx with he | ht
        · have : o = str "-h" := by cases he; rfl
          subst this
          rw [applyOpt_help prefs cfg _ a (Or.inl rfl)] at hstep
          cases hstep
          exact applyOpts_help_preserved prefs rest _ cfg' h rfl
        · exact ih cfg1 cfg' h ⟨x, Or.inl ht⟩
      · rcases List.mem_cons.mp hx with he | ht
        · have : o = str "--help" := by cases he; rfl
          subst this
          rw [applyOpt_help prefs cfg _ a (Or.inr rfl)] at hstep
          cases hstep
          exact applyOpts_help_preserved prefs rest _ cfg' h rfl
        · exact ih cfg1 cfg' h ⟨x, Or.inr ht⟩

/-- Splitting on the first `=` of `key=value`, for a key containing no `=`. -/
theorem splitOnce_append (k v : Str) (hk : ¬ 61 ∈ k) :
    splitOnce 61 (k ++ 61 :: v) = (k, some v) := by
  induction k with
  | nil => rfl
  | cons c rest ih =>
    have hc : (c == 61) = false := by
      refine beq_eq_false_iff_ne.mpr ?_
      intro h
      exact hk (by simp [h])
    have hr : ¬ 61 ∈ rest := fun h => hk (by simp [h])
    simp only [List.cons_append, splitOnce, hc, Bool.false_eq_true, if_false,
      List.append_eq, ih hr]

/-- The `-r key=value` step (config.py:215-217) adds/overwrites the pair in
the config's replacement map, for any `=`-free non-empty key. -/
theorem applyOpt_replace_pair (prefs : Prefs) (config : Config) (k0 : Nat)
    (kr v : Str) (hk : ¬ 61 ∈ (k0 :: kr)) :
    applyOpt prefs config (str "--filename-replace") ((k0 :: kr) ++ 61 :: v)
      = .ok { config with
          filename_replace := dictSet config.filename_replace (k0 :: kr) v } := by
  have h60 : (61 == k0) = false := by
    refine beq_eq_false_iff_ne.mpr ?_
    intro h
    exact hk (by simp [← h])
  have h2 : (str "==").isPrefixOf ((k0 :: kr) ++ 61 :: v) = false := by
    show List.isPrefixOf [61, 61] (k0 :: (kr ++ 61 :: v)) = false
    simp [List.isPrefixOf, h60]
  have h3 : (str "=").isPrefixOf ((k0 :: kr) ++ 61 :: v) = false := by
    show List.isPrefixOf [61] (k0 :: (kr ++ 61 :: v)) = false
    simp [List.isPrefixOf, h60]
  have h4 : ((k0 :: kr) ++ 61 :: v).contains 61 = true := by
    simp [List.contains]
  unfold applyOpt
  rw [show optKind (str "--filename-replace") = OptKind.filenameReplace
    from rfl]
  dsimp only
  rw [h2, h3, h4]
  have hsplit : splitOnce 61 (k0 :: (kr ++ 61 :: v)) = (k0 :: kr, some v) :=
    splitOnce_append (k0 :: kr) v hk
  simp only [List.cons_append, List.isEmpty_cons, Bool.not_false, if_true,
    Bool.false_eq_true, if_false, hsplit, Option.getD_some]

/-! ### Lemmas about the heap-instrumented layer -/

theorem storeGet_set_ne (st : ReplaceStore) (i j : Nat) (m : Replace)
    (hij : ¬ i = j) : storeGet (storeSet st i m) j = storeGet st j := by
  simp only [storeGet, storeSet, List.getD_eq_getElem?_getD]
  rw [List.getElem?_set_ne hij]

theorem storeGet_append_lt (st : ReplaceStore) (x : Replace) (j : Nat)
    (hj : j < st.length) : storeGet (st ++ [x]) j = storeGet st j := by
  simp only [storeGet, List.getD_eq_getElem?_getD]
  rw [List.getElem?_append_left hj]

/-- One heap-model option step leaves the preferences' `Replace` object
untouched, keeps the config's reference distinct from the preferences', and
never shrinks the store. -/
theorem applyOptH_frame (prefs : PrefsH) (config : ConfigH)
    (st : ReplaceStore) (o a : Str) (out : ConfigH × ReplaceStore)
    (h : applyOptH prefs config st o a = .ok out)
    (hlt : prefs.filename_replace < st.length)
    (hne : ¬ config.filename_replace = prefs.filename_replace) :
    storeGet out.2 prefs.filename_replace = storeGet st prefs.filename_replace
    ∧ ¬ out.1.filename_replace = prefs.filename_replace
    ∧ prefs.filename_replace < out.2.length := by
  unfold applyOptH at h
  cases hk : optKind o <;> rw [hk] at h <;> repeat' split at h
  all_goals first
    | exact Except.noConfusion h
    | (cases h; exact ⟨rfl, hne, hlt⟩)
    | (cases h;
       exact ⟨storeGet_set_ne st config.filename_replace
          prefs.filename_replace _ hne,
        hne, by simpa [storeSet] using hlt⟩)
    | (cases h;
       exact ⟨storeGet_append_lt st _ _ hlt,
        by simp only []; omega,
        by simp only [List.length_append, List.length_singleton]; omega⟩)

/-- The heap-model option loop preserves the preferences' `Replace` object
and the non-aliasing of the config's reference. -/
theorem applyOptsH_frame (prefs : PrefsH) :
    ∀ (opts : List (Str × Str)) (config : ConfigH) (st : ReplaceStore)
      (out : ConfigH × ReplaceStore),
      applyOptsH prefs opts config st = .ok out →
      prefs.filename_replace < st.length →
      ¬ config.filename_replace = prefs.filename_replace →
      storeGet out.2 prefs.filename_replace
          = storeGet st prefs.filename_replace
        ∧ ¬ out.1.filename_replace = prefs.filename_replace
        ∧ prefs.filename_replace < out.2.length := by
  intro opts
  induction opts with
  | nil =>
    intro config st out h hlt hne
    cases h
    exact ⟨rfl, hne, hlt⟩
  | cons p rest ih =>
    intro config st out h hlt hne
    obtain ⟨o, a⟩ := p
    simp only [applyOptsH] at h
    cases hstep : applyOptH prefs config st o a with
    | error e =>
      rw [hstep] at h
      exact Except.noConfusion h
    | ok out1 =>
      rw [hstep] at h
      obtain ⟨c1, s1⟩ := out1
      obtain ⟨g1, g2, g3⟩ := applyOptH_frame prefs config st o a (c1, s1)
        hstep hlt hne
      obtain ⟨h1, h2, h3⟩ := ih c1 s1 out h g3 g2
      exact ⟨h1.trans g1, h2, h3⟩

/-- The subcommand stage does not touch the replacement-map reference. -/
theorem subcommandStageH_ref (config config' : ConfigH) (args : List Str)
    (h : subcommandStageH config args = .ok config') :
    config'.filename_replace = config.filename_replace := by
  unfold subcommandStageH at h
  repeat' split at h
  all_goals first
    | exact Except.noConfusion h
    | (cases h; rfl)

/-! ### Lemmas about `listReplace` and the sanitization chain -/

theorem listReplaceAux_fuel (k v : Str) :
    ∀ (f : Nat) (s : Str), s.length ≤ f →
      listReplaceAux k v f s = listReplaceAux k v s.length s := by
  intro f
  induction f using Nat.strong_induction_on with
  | _ f ih =>
    intro s hs
    cases s with
    | nil => cases f <;> rfl
    | cons c rest =>
      cases f with
      | zero => simp at hs
      | succ f' =>
        simp only [listReplaceAux, List.length_cons]
        have hr : rest.length ≤ f' := by simpa using hs
        by_cases hpre : k.isPrefixOf (c :: rest) = true
        · rw [if_pos hpre, if_pos hpre]
          have hXf : (List.drop (k.length - 1) rest).length ≤ f' :=
            le_trans (by simp) hr
          rw [ih f' (by omega) _ hXf,
            ih rest.length (by omega) _ (by simp)]
        · rw [if_neg hpre, if_neg hpre, ih f' (by omega) _ hr]

theorem listReplace_nil_pat (v s : Str) : listReplace [] v s = s := by
  simp [listReplace]

theorem listReplace_nil (k v : Str) : listReplace k v [] = [] := by
  by_cases hk : k = [] <;> simp [listReplace, listReplaceAux, hk]

/-- One unfolding step of `listReplace` on a non-empty target, for a
non-empty key: exactly the source's scan-and-replace step. -/
theorem listReplace_cons (k v : Str) (c : Nat) (rest : Str) (h : ¬ k = []) :
    listReplace k v (c :: rest)
      = if k.isPrefixOf (c :: rest) then
          v ++ listReplace k v (List.drop k.length (c :: rest))
        else c :: listReplace k v rest := by
  match k, h with
  | k0 :: kr, _ =>
    show listReplaceAux (k0 :: kr) v (rest.length + 1) (c :: rest) = _
    simp only [listReplaceAux, List.length_cons, List.drop_succ_cons,
      List.length_cons, Nat.add_sub_cancel]
    by_cases hpre : (k0 :: kr).isPrefixOf (c :: rest) = true
    · rw [if_pos hpre, if_pos hpre]
      rw [listReplaceAux_fuel _ _ _ _ (by simp [List.length_drop])]
      rw [show listReplace (k0 :: kr) v (List.drop kr.length rest)
          = listReplaceAux (k0 :: kr) v (List.drop kr.length rest).length
              (List.drop kr.length rest) from by simp [listReplace]]
    · rw [if_neg hpre, if_neg hpre]
      rw [show listReplace (k0 :: kr) v rest
          = listReplaceAux (k0 :: kr) v rest.length rest from by
        simp [listReplace]]

/-- Every character of `listReplace k v s` comes from `v` or from `s`. -/
theorem listReplace_mem (k v : Str) :
    ∀ (s : Str) (x : Nat), x ∈ listReplace k v s → x ∈ v ∨ x ∈ s := by
  by_cases hk : k = []
  · intro s x hx
    rw [hk, listReplace_nil_pat] at hx
    exact Or.inr hx
  · suffices h : ∀ (n : Nat) (s : Str), s.length ≤ n →
        ∀ x, x ∈ listReplace k v s → x ∈ v ∨ x ∈ s by
      intro s x
      exact h s.length s le_rfl x
    intro n
    induction n with
    | zero =>
      intro s hs x hx
      have : s = [] := by cases s <;> simp_all
      subst this
      rw [listReplace_nil] at hx
      simp at hx
    | succ n ih =>
      intro s hs x hx
      cases s with
      | nil =>
        rw [listReplace_nil] at hx
        simp at hx
      | cons c rest =>
        have hr : rest.length ≤ n := by simpa using hs
        rw [listReplace_cons k v c rest hk] at hx
        by_cases hpre : k.isPrefixOf (c :: rest) = true
        · rw [if_pos hpre] at hx
          rcases List.mem_append.mp hx with hv | hd
          · exact Or.inl hv
          · have hlen : (List.drop k.length (c :: rest)).length ≤ n := by
              have : 1 ≤ k.length := by
                cases k with
                | nil => exact absurd rfl hk
                | cons a b => simp
              simp only [List.length_drop, List.length_cons]
              omega
            rcases ih _ hlen x hd with hv | hsm
            · exact Or.inl hv
            · exact Or.inr (List.mem_of_mem_drop hsm)
        · rw [if_neg hpre] at hx
          rcases List.mem_cons.mp hx with he | hrest
          · exact Or.inr (by simp [he])
          · rcases ih _ hr x hrest with hv | hsm
            · exact Or.inl hv
            · exact Or.inr (by simp [hsm])

/-- Every character of a sequential-replacement fold comes from the initial
string or from one of the replacement values. -/
theorem foldl_replace_mem (ps : Replace) (s0 : Str) (x : Nat)
    (hx : x ∈ ps.foldl (fun t kv => listReplace kv.1 kv.2 t) s0) :
    x ∈ s0 ∨ ∃ kv ∈ ps, x ∈ kv.2 := by
  induction ps generalizing s0 with
  | nil => exact Or.inl (by simpa using hx)
  | cons p ps ih =>
    simp only [List.foldl_cons] at hx
    rcases ih _ hx with hs | hkv
    · rcases listReplace_mem p.1 p.2 s0 x hs with hv | hs0
      · exact Or.inr ⟨p, by simp, hv⟩
      · exact Or.inl hs0
    · rcases hkv with ⟨kv, hmem, hv⟩
      exact Or.inr ⟨kv, by simp [hmem], hv⟩

/-- Replacing one single character by one single character is a
character-wise map. -/
theorem listReplace_single (c d : Nat) (s : Str) :
    listReplace [c] [d] s = s.map (fun x => if x = c then d else x) := by
  suffices h : ∀ (n : Nat) (s : Str), s.length ≤ n →
      listReplace [c] [d] s = s.map (fun x => if x = c then d else x) by
    exact h s.length s le_rfl
  intro n
  induction n with
  | zero =>
    intro s hs
    have : s = [] := by cases s <;> simp_all
    subst this
    simp [listReplace_nil]
  | succ n ih =>
    intro s hs
    cases s with
    | nil => simp [listReplace_nil]
    | cons x rest =>
      have hr : rest.length ≤ n := by simpa using hs
      rw [listReplace_cons [c] [d] x rest (by simp)]
      by_cases hx : c = x
      · subst hx
        rw [if_pos (by simp [List.isPrefixOf])]
        simp only [List.length_singleton, List.drop_succ_cons, List.drop_zero]
        rw [ih rest hr]
        simp
      · rw [if_neg (by simp [List.isPrefixOf, hx])]
        rw [ih rest hr]
        simp only [List.map_cons]
        congr 1
        rw [if_neg (fun he => hx he.symm)]

/-- The built-in sanitization loop (each forbidden character replaced by `-`,
sequentially) is a character-wise map. -/
theorem sanitize_foldl (bs s0 : Str) :
    (bs.map (fun bad => ([bad], ([45] : Str)))).foldl
        (fun t kv => listReplace kv.1 kv.2 t) s0
      = s0.map (fun c => if c ∈ bs then 45 else c) := by
  induction bs generalizing s0 with
  | nil => simp
  | cons b bs ih =>
    simp only [List.map_cons, List.foldl_cons]
    rw [listReplace_single, ih, List.map_map]
    apply List.map_congr_left
    intro a _
    by_cases hab : a = b
    · subst hab; simp
    · simp [hab, Function.comp]

/-- `strftime` at the fixed destination-filename format is the explicit
`YYYY-MM-DD HH:MM:SS` rendering. -/
theorem strftime_dateFmt (dt : DateTime) :
    strftime dt (str "%Y-%m-%d %H:%M:%S")
      = intPad 4 dt.year ++ str "-" ++ intPad 2 dt.month ++ str "-"
        ++ intPad 2 dt.day ++ str " " ++ intPad 2 dt.hour ++ str ":"
        ++ intPad 2 dt.minute ++ str ":" ++ intPad 2 dt.second := by
  rw [show str "%Y-%m-%d %H:%M:%S"
      = [37, 89, 45, 37, 109, 45, 37, 100, 32, 37, 72, 58, 37, 77, 58, 37, 83]
      from by decide]
  rw [show str "-" = [45] from by decide, show str " " = [32] from by decide,
    show str ":" = [58] from by decide]
  simp [strftime]

/-- `List.intercalate` on a two-element list is plain concatenation. -/
theorem intercalate_pair (sep a b : Str) :
    List.intercalate sep [a, b] = a ++ sep ++ b := by
  simp [List.intercalate, List.intersperse]

/-! ### Lemmas about job execution -/

/-- Every request issued by `Clip.write` carries the source path it was
given. -/
theorem clip_write_src (fs : FS) (ffmpegOk : Request → Bool) (clip : Clip)
    (src dst : Str) (reqs : List Request)
    (h : clip.write fs ffmpegOk src dst = .ok reqs) :
    ∀ r ∈ reqs, r.src = src := by
  intro r hr
  simp only [Clip.write] at h
  by_cases hex : fs.existsB dst = true
  · rw [if_pos hex] at h
    cases h
    simp at hr
  · rw [if_neg hex] at h
    by_cases hff : ffmpegOk ⟨src, clip.startT, clip.endT - clip.startT, dst⟩
        = true
    · rw [if_pos hff] at h
      cases h
      rw [List.mem_singleton.mp hr]
    · rw [if_neg hff] at h
      exact Except.noConfusion h

/-- Every request issued by the clip loop carries the source path it was
given. -/
theorem writeClipsLoop_src (fs : FS) (ffmpegOk : Request → Bool)
    (config : Config) (date : DateTime) (epoch : Int) (title : Str)
    (src dstDir : Str) :
    ∀ (clips : List Clip) (reqs : List Request),
      writeClipsLoop fs ffmpegOk config date epoch title src dstDir clips
        = .ok reqs →
      ∀ r ∈ reqs, r.src = src := by
  intro clips
  induction clips with
  | nil =>
    intro reqs h r hr
    cases h
    simp at hr
  | cons c rest ih =>
    intro reqs h r hr
    simp only [writeClipsLoop] at h
    cases hw : c.write fs ffmpegOk src
        (pathJoin dstDir (c.path_str config date epoch title)) with
    | error e => rw [hw] at h; exact Except.noConfusion h
    | ok reqs1 =>
      rw [hw] at h
      cases hrest : writeClipsLoop fs ffmpegOk config date epoch title
          src dstDir rest with
      | error e => rw [hrest] at h; exact Except.noConfusion h
      | ok reqs2 =>
        rw [hrest] at h
        cases h
        rcases List.mem_append.mp hr with h1 | h2
        · exact clip_write_src fs ffmpegOk c src _ reqs1 hw r h1
        · exact ih reqs2 hrest r h2

/-- When every destination already exists, the clip loop issues no requests
and succeeds. -/
theorem writeClipsLoop_all_exist (fs : FS) (ffmpegOk : Request → Bool)
    (config : Config) (date : DateTime) (epoch : Int) (title : Str)
    (src dstDir : Str) :
    ∀ (clips : List Clip),
      (∀ c ∈ clips,
        fs.existsB (pathJoin dstDir (c.path_str config date epoch title))
          = true) →
      writeClipsLoop fs ffmpegOk config date epoch title src dstDir clips
        = .ok [] := by
  intro clips
  induction clips with
  | nil => intro _; rfl
  | cons c rest ih =>
    intro hall
    have hc := hall c (by simp)
    have hrest := ih (fun c' hc' => hall c' (by simp [hc']))
    simp only [writeClipsLoop, Clip.write, hc, if_true, hrest]
    rfl

/-- When every source is present and every destination already exists, the
video loop issues no requests and succeeds. -/
theorem runLoop_all_exist (fs : FS) (ffmpegOk : Request → Bool)
    (config : Config) (videoDir outputDir : Str) :
    ∀ (videos : List Video),
      (∀ v ∈ videos,
        fs.pathIsFile (Video.srcPath config v videoDir) = true) →
      (∀ v ∈ videos, ∀ c ∈ v.clips,
        fs.existsB
            (pathJoin outputDir (c.path_str config v.date v.epoch v.title))
          = true) →
      runLoop fs ffmpegOk config videoDir outputDir videos = .ok [] := by
  intro videos
  induction videos with
  | nil => intro _ _; rfl
  | cons v rest ih =>
    intro hsrc hdst
    have hv := hsrc v (by simp)
    have hloop := writeClipsLoop_all_exist fs ffmpegOk config v.date v.epoch
      v.title (Video.srcPath config v videoDir) outputDir v.clips
      (hdst v (by simp))
    have hrest := ih (fun v' h' => hsrc v' (by simp [h']))
      (fun v' h' => hdst v' (by simp [h']))
    simp only [runLoop, Video.write_clips, hrest]
    rw [show (withSuffix
        (pathJoin videoDir
          (Replace.apply config.filename_replace
            (strftime v.date config.video_filename_format)))
        (str "." ++ config.video_ext)) = Video.srcPath config v videoDir
      from rfl]
    rw [hv]
    simp only [Bool.not_true, Bool.false_eq_true, if_false, hloop]
    rfl

/-! ### Lemmas about clip-document validation -/

/-- The success test of the post-lookup clip validation, as a function of
the parsed time range and the raw title. -/
theorem clipFromFields_isOk (titleV timeV : Untyped) :
    isOkE (clipFromFields titleV timeV)
      = (match clipParseTime timeV with
         | some (s, e) => decide (s < e) && !(pyStr titleV).isEmpty
         | none => false) := by
  unfold clipFromFields
  cases hp : clipParseTime timeV with
  | none => rfl
  | some p =>
    obtain ⟨s, e⟩ := p
    dsimp only
    by_cases hle : e ≤ s
    · rw [if_pos hle]
      have hns : ¬ s < e := by omega
      simp [isOkE, hns]
    · rw [if_neg hle]
      have hse : s < e := by omega
      by_cases ht : (pyStr titleV).isEmpty = true
      · rw [if_pos ht]
        simp [isOkE, hse, ht]
      · rw [if_neg ht]
        simp only [Bool.not_eq_true] at ht
        simp [isOkE, hse, ht]

/-- A successfully validated clip satisfies `end > start` and has a
non-empty title. -/
theorem clipFromFields_ok (titleV timeV : Untyped) (c : Clip)
    (h : clipFromFields titleV timeV = .ok c) :
    c.startT < c.endT ∧ ¬ c.title = [] := by
  unfold clipFromFields at h
  cases hp : clipParseTime timeV with
  | none => rw [hp] at h; exact Except.noConfusion h
  | some p =>
    obtain ⟨s, e⟩ := p
    rw [hp] at h
    dsimp only at h
    by_cases hle : e ≤ s
    · rw [if_pos hle] at h
      exact Except.noConfusion h
    · rw [if_neg hle] at h
      by_cases ht : (pyStr titleV).isEmpty = true
      · rw [if_pos ht] at h
        exact Except.noConfusion h
      · rw [if_neg ht] at h
        cases h
        constructor
        · show s < e
          omega
        · show ¬ pyStr titleV = []
          simp only [Bool.not_eq_true, List.isEmpty_eq_false] at ht
          exact ht

/-! ### Claim theorems: filename generation -/

/-- C2: for every config, video date, epoch, video title and clip, the
destination filename is built by joining the `YYYY-MM-DD HH:MM:SS` date+epoch
rendering, `T+` followed by the path-formatted `start − epoch`, the video
title and the clip title with `" - "`, case-folding, replacing each character
of the fixed set `" * / : ? \ | < >` by `-`, applying the caller-supplied
replacement map (built-in sanitization strictly first), and appending `.`
plus the configured output extension. -/
theorem c2_path_str_matches_spec (clip : Clip) (config : Config)
    (date : DateTime) (epoch : Int) (title : Str) :
    clip.path_str config date epoch title
      = specDestinationFilename clip config date epoch title := by
  simp only [Clip.path_str, specDestinationFilename, Replace.apply]
  rw [show str "-" = [45] from by decide]
  rw [List.foldl_append, sanitize_foldl, strftime_dateFmt, intercalate_pair]
  rw [show str "-" = [45] from by decide]

/-- C3: `Replace.apply` iterates the pairs in insertion order, replacing
every occurrence of each key in the current (possibly already-modified)
string before moving on; in particular `{" "→"_", "_"→"-"}` applied to
`"a b"` yields `"a-b"`, not `"a_b"`. -/
theorem c3_replace_apply_sequential :
    (∀ (k v : Str) (rest : Replace) (s : Str),
        Replace.apply ((k, v) :: rest) s = Replace.apply rest (listReplace k v s))
    ∧ Replace.apply [(str " ", str "_"), (str "_", str "-")] (str "a b")
        = str "a-b" :=
  ⟨fun _ _ _ _ => rfl, by decide⟩

/-- C4 counterexample: with a replacement map whose value contains an
uppercase letter, the generated filename is not fully lower-cased — the
user-rule application happens after case-folding, so it can reintroduce
uppercase. -/
theorem c4_counterexample_not_lowercase :
    ∃ c ∈ Clip.path_str ⟨300, 0, str "x"⟩
        { Config.default Prefs.defaults with
            filename_replace := [(str "a", str "A")] }
        ⟨2020, 1, 1, 0, 0, 0⟩ 0 (str "a"),
      65 ≤ c ∧ c ≤ 90 := by decide

/-- C4 (amended): the destination-filename function is deterministic, and its
result is fully lower-cased whenever the configured replacement-map values
and the output extension contain no uppercase characters (the joined string
itself is case-folded unconditionally). -/
theorem c4_path_str_deterministic_and_lowercase (clip : Clip) (config : Config)
    (date : DateTime) (epoch : Int) (title : Str)
    (hvals : ∀ kv ∈ config.filename_replace, NoUpper kv.2)
    (hext : NoUpper config.output_ext) :
    clip.path_str config date epoch title = clip.path_str config date epoch title
    ∧ NoUpper (clip.path_str config date epoch title) := by
  refine ⟨rfl, ?_⟩
  intro x hx
  simp only [Clip.path_str] at hx
  rw [intercalate_pair] at hx
  rcases List.mem_append.mp hx with h1 | hext'
  · rcases List.mem_append.mp h1 with hrep | hdot
    · rcases foldl_replace_mem _ _ _ hrep with hf | ⟨kv, hkv, hvmem⟩
      · simp only [casefold, List.mem_map] at hf
        obtain ⟨y, _, rfl⟩ := hf
        simp only [casefoldChar]
        by_cases hy : 65 ≤ y ∧ y ≤ 90
        · rw [if_pos hy]; omega
        · rw [if_neg hy]; exact hy
      · rcases List.mem_append.mp hkv with hsan | huser
        · simp only [List.mem_map] at hsan
          obtain ⟨bad, _, rfl⟩ := hsan
          rw [show str "-" = [45] from by decide] at hvmem
          have : x = 45 := by simpa using hvmem
          omega
        · exact hvals kv huser x hvmem
    · rw [show str "." = [46] from by decide] at hdot
      have : x = 46 := by simpa using hdot
      omega
  · exact hext x hext'

/-- C5: resolved-configuration precedence, for every setting: the hard-coded
defaults are those of `Prefs()` (config.py:41-53); with no CLI flags the
resolved config takes every field from the preferences (`Config.default`);
and each setting's command-line flag overrides the preferences value — shown
for `--job-path`, `--output-dir`, `--output-ext`, `--video-dir`,
`--video-ext`, `--video-filename-format` with any non-empty value, and for
`-r`/`--filename-replace key=value`, whose pair is applied on top of the
preferences' map (overwriting its binding for that key).  In particular,
preferences `video-ext="rm"` with no CLI override resolves to `rm`, and with
`--video-ext mkv` to `mkv`. -/
theorem c5_video_ext_precedence :
    Prefs.defaults.video_ext = str "mkv"
    ∧ (∀ prefs : Prefs, (Config.from_argv [str "prog"] prefs).map Config.video_ext
        = .ok prefs.video_ext)
    ∧ (∀ (prefs : Prefs) (e : Str), ¬ e = [] →
        (Config.from_argv [str "prog", str "--video-ext", e] prefs).map
          Config.video_ext = .ok e)
    ∧ (Config.from_argv [str "prog"]
        { Prefs.defaults with video_ext := str "rm" }).map Config.video_ext
      = .ok (str "rm")
    ∧ (Config.from_argv [str "prog", str "--video-ext", str "mkv"]
        { Prefs.defaults with video_ext := str "rm" }).map Config.video_ext
      = .ok (str "mkv")
    ∧ Prefs.defaults
      = Prefs.mk [] (str "clip.yaml") (str ".") (str "mkv") (str ".")
          (str "mkv") (str "%Y-%m-%d %H-%M-%S")
    ∧ (∀ prefs : Prefs,
        Config.from_argv [str "prog"] prefs = .ok (Config.default prefs))
    ∧ (∀ (prefs : Prefs) (v : Str), ¬ v = [] →
        (Config.from_argv [str "prog", str "--job-path", v] prefs).map
          Config.job_path = .ok v)
    ∧ (∀ (prefs : Prefs) (v : Str), ¬ v = [] →
        (Config.from_argv [str "prog", str "--output-dir", v] prefs).map
          Config.output_dir = .ok v)
    ∧ (∀ (prefs : Prefs) (v : Str), ¬ v = [] →
        (Config.from_argv [str "prog", str "--output-ext", v] prefs).map
          Config.output_ext = .ok v)
    ∧ (∀ (prefs : Prefs) (v : Str), ¬ v = [] →
        (Config.from_argv [str "prog", str "--video-dir", v] prefs).map
          Config.video_dir = .ok v)
    ∧ (∀ (prefs : Prefs) (v : Str), ¬ v = [] →
        (Config.from_argv [str "prog", str "--video-filename-format", v]
          prefs).map Config.video_filename_format = .ok v)
    ∧ (∀ (prefs : Prefs) (k0 : Nat) (kr v : Str), ¬ 61 ∈ (k0 :: kr) →
        (Config.from_argv [str "prog", str "--filename-replace",
            (k0 :: kr) ++ 61 :: v] prefs).map Config.filename_replace
          = .ok (dictSet prefs.filename_replace (k0 :: kr) v)) := by
  refine ⟨rfl, fun prefs => rfl, fun prefs e he => ?_, rfl, rfl, rfl,
    fun prefs => rfl, fun prefs v hv => ?_, fun prefs v hv => ?_,
    fun prefs v hv => ?_, fun prefs v hv => ?_, fun prefs v hv => ?_,
    fun prefs k0 kr v hk => ?_⟩
  · cases e with
    | nil => exact absurd rfl he
    | cons c t => rfl
  · cases v with
    | nil => exact absurd rfl hv
    | cons c t => rfl
  · cases v with
    | nil => exact absurd rfl hv
    | cons c t => rfl
  · cases v with
    | nil => exact absurd rfl hv
    | cons c t => rfl
  · cases v with
    | nil => exact absurd rfl hv
    | cons c t => rfl
  · cases v with
    | nil => exact absurd rfl hv
    | cons c t => rfl
  · have hfa : Config.from_argv [str "prog", str "--filename-replace",
        (k0 :: kr) ++ 61 :: v] prefs
        = applyOpts prefs
            [(str "--filename-replace", (k0 :: kr) ++ 61 :: v)]
            (Config.default prefs) := rfl
    rw [hfa]
    simp only [applyOpts,
      applyOpt_replace_pair prefs (Config.default prefs) k0 kr v hk]
    rfl

/-- C5 witness: the flag-overrides-preferences conjuncts applied at concrete
inputs — a non-empty `--video-ext` value, and a `-r`-style `a=b` pair
overwriting the preferences' existing binding for `a`. -/
theorem c5_witness :
    (¬ (str "avi") = []
      ∧ (Config.from_argv [str "prog", str "--video-ext", str "avi"]
          Prefs.defaults).map Config.video_ext = .ok (str "avi"))
    ∧ (¬ 61 ∈ str "a"
      ∧ (Config.from_argv [str "prog", str "--filename-replace", str "a=b"]
          { Prefs.defaults with
              filename_replace := [(str "a", str "z")] }).map
          Config.filename_replace
        = .ok [(str "a", str "b")]) :=
  ⟨⟨by decide,
    c5_video_ext_precedence.2.2.1 Prefs.defaults (str "avi") (by decide)⟩,
   ⟨by decide,
    c5_video_ext_precedence.2.2.2.2.2.2.2.2.2.2.2.2
      { Prefs.defaults with filename_replace := [(str "a", str "z")] }
      97 [] (str "b") (by decide)⟩⟩

/-- C10 counterexample: `-h` after the positional subcommand token is never
parsed as an option (`getopt` stops at the first positional), so
`prog run -h` resolves to RUN, not HELP. -/
theorem c10_counterexample_help_after_positional :
    (Config.from_argv [str "prog", str "run", str "-h"] Prefs.defaults).map
        Config.subcommand = .ok Subcommand.RUN
    ∧ Subcommand.RUN ≠ Subcommand.HELP :=
  ⟨rfl, by decide⟩

/-- C10 (amended): whenever `-h` or `--help` is among the options actually
parsed by getopt — i.e. it appears before the first positional argument — a
successful `Config.from_argv` resolves the subcommand to HELP even when a
valid subcommand token is also given, because option flags are applied after
the positional subcommand token is read. -/
theorem c10_parsed_help_flag_wins (argv : List Str) (prefs : Prefs)
    (opts : List (Str × Str)) (args : List Str) (config : Config)
    (hparse : getopt (argv.drop 1) = .ok (opts, args))
    (hmem : ∃ x, (str "-h", x) ∈ opts ∨ (str "--help", x) ∈ opts)
    (hok : Config.from_argv argv prefs = .ok config) :
    config.subcommand = Subcommand.HELP := by
  have hunfold : Config.from_argv argv prefs
      = match subcommandStage (Config.default prefs) args with
        | .error e => .error e
        | .ok config' => applyOpts prefs opts config' := by
    unfold Config.from_argv
    rw [hparse]
  rw [hunfold] at hok
  cases hstage : subcommandStage (Config.default prefs) args with
  | error e =>
    rw [hstage] at hok
    exact Except.noConfusion hok
  | ok config' =>
    rw [hstage] at hok
    exact applyOpts_help prefs opts config' config hok hmem

/-- C10 witness: `prog -h run` parses `-h` before the positional token and
resolves to HELP. -/
theorem c10_witness :
    ({ Config.default Prefs.defaults with subcommand := Subcommand.HELP }
        : Config).subcommand = Subcommand.HELP :=
  c10_parsed_help_flag_wins [str "prog", str "-h", str "run"] Prefs.defaults
    [(str "-h", [])] [str "run"] _ rfl ⟨[], Or.inl (by simp)⟩ rfl

/-- C1 counterexample: with the map `{"0"→"x"}` and the format `%Y`, the
claim's source name `strftime(date, replace.apply(format))` is `2020` — and
a file `d/2020.mkv` exists on the modelled filesystem — yet `write_clips`
fails with a missing-video-file error, because the code computes
`replace.apply(strftime(date, format))` = `2x2x` instead. -/
theorem c1_counterexample_replacement_on_result :
    strftime (DateTime.mk 2020 1 1 0 0 0)
        (Replace.apply [(str "0", str "x")] (str "%Y")) = str "2020"
    ∧ (FS.mk (fun p => p == str "d/2020.mkv") (fun _ => false)).pathIsFile
        (withSuffix (pathJoin (str "d") (str "2020")) (str ".mkv")) = true
    ∧ Video.write_clips
        (FS.mk (fun p => p == str "d/2020.mkv") (fun _ => false))
        (fun _ => true)
        { Config.default Prefs.defaults with
            filename_replace := [(str "0", str "x")],
            video_filename_format := str "%Y" }
        { date := DateTime.mk 2020 1 1 0 0 0, title := str "video" }
        (str "d") (str "o")
      = .error (str "missing video file") := by decide

/-- C1 (amended): deriving the source filename applies the configured
replacement map to the strftime-formatted date string — not to the format
string — before appending the source extension: `write_clips` probes exactly
`Video.srcPath` (an error when it is not a file), and every extraction
request it issues reads from that path.  It is `Video.from_path` (the parsing
direction) that applies the map to the format string. -/
theorem c1_src_name_is_replace_of_strftime (fs : FS)
    (ffmpegOk : Request → Bool) (config : Config) (video : Video)
    (srcDir dstDir : Str) :
    (fs.pathIsFile (Video.srcPath config video srcDir) = false →
      Video.write_clips fs ffmpegOk config video srcDir dstDir
        = .error (str "missing video file"))
    ∧ (∀ reqs, Video.write_clips fs ffmpegOk config video srcDir dstDir
          = .ok reqs →
        ∀ r ∈ reqs, r.src = Video.srcPath config video srcDir) := by
  constructor
  · intro hmiss
    simp only [Video.write_clips]
    rw [show (withSuffix
        (pathJoin srcDir
          (Replace.apply config.filename_replace
            (strftime video.date config.video_filename_format)))
        (str "." ++ config.video_ext)) = Video.srcPath config video srcDir
      from rfl]
    rw [hmiss]
    rfl
  · intro reqs hok r hr
    simp only [Video.write_clips] at hok
    rw [show (withSuffix
        (pathJoin srcDir
          (Replace.apply config.filename_replace
            (strftime video.date config.video_filename_format)))
        (str "." ++ config.video_ext)) = Video.srcPath config video srcDir
      from rfl] at hok
    by_cases hf : fs.pathIsFile (Video.srcPath config video srcDir) = true
    · rw [hf] at hok
      simp only [Bool.not_true, Bool.false_eq_true, if_false] at hok
      exact writeClipsLoop_src fs ffmpegOk config video.date video.epoch
        video.title (Video.srcPath config video srcDir) dstDir video.clips
        reqs hok r hr
    · rw [Bool.not_eq_true] at hf
      rw [hf] at hok
      exact Except.noConfusion hok

/-- C1 witness: the missing-source branch of the amended theorem at a
concrete configuration (no file exists on the modelled filesystem). -/
theorem c1_witness :
    (FS.mk (fun _ => false) (fun _ => false)).pathIsFile
        (Video.srcPath (Config.default Prefs.defaults)
          { date := DateTime.mk 2020 1 1 0 0 0, title := str "video" }
          (str "d")) = false
    ∧ Video.write_clips (FS.mk (fun _ => false) (fun _ => false))
        (fun _ => true) (Config.default Prefs.defaults)
        { date := DateTime.mk 2020 1 1 0 0 0, title := str "video" }
        (str "d") (str "o")
      = .error (str "missing video file") :=
  ⟨by decide,
    (c1_src_name_is_replace_of_strftime
      (FS.mk (fun _ => false) (fun _ => false)) (fun _ => true)
      (Config.default Prefs.defaults)
      { date := DateTime.mk 2020 1 1 0 0 0, title := str "video" }
      (str "d") (str "o")).1 (by decide)⟩

/-- C8: a clip whose destination file already exists issues no extraction
request and succeeds; consequently a job all of whose destination files
already exist (with the source recordings still present) issues zero
extraction requests and succeeds. -/
theorem c8_existing_destination_skip (fs : FS) (ffmpegOk : Request → Bool) :
    (∀ (clip : Clip) (src dst : Str), fs.existsB dst = true →
      clip.write fs ffmpegOk src dst = .ok [])
    ∧ (∀ (config : Config) (job : Job),
        (∀ v ∈ job.videos,
          fs.pathIsFile (Video.srcPath config v job.video_dir) = true) →
        (∀ v ∈ job.videos, ∀ c ∈ v.clips,
          fs.existsB
              (pathJoin job.output_dir
                (c.path_str config v.date v.epoch v.title)) = true) →
        Job.run fs ffmpegOk config job = .ok []) := by
  constructor
  · intro clip src dst hdst
    simp only [Clip.write, hdst, if_true]
  · intro config job hsrc hdst
    exact runLoop_all_exist fs ffmpegOk config job.video_dir job.output_dir
      job.videos hsrc hdst

/-- C8 witness: on a filesystem where every path exists, a one-video,
one-clip job re-run issues zero requests and succeeds. -/
theorem c8_witness :
    Clip.write (FS.mk (fun _ => true) (fun _ => true)) (fun _ => false)
        (Clip.mk 300 0 (str "intro")) (str "s") (str "d") = .ok []
    ∧ Job.run (FS.mk (fun _ => true) (fun _ => true)) (fun _ => false)
        (Config.default Prefs.defaults)
        (Job.mk (str "o") (str "d")
          [Video.mk (DateTime.mk 2020 1 1 0 0 0) (str "video 1")
            [Clip.mk 300 0 (str "intro")] 0])
      = .ok [] :=
  ⟨(c8_existing_destination_skip (FS.mk (fun _ => true) (fun _ => true))
      (fun _ => false)).1 (Clip.mk 300 0 (str "intro")) (str "s") (str "d")
      (by decide),
   (c8_existing_destination_skip (FS.mk (fun _ => true) (fun _ => true))
      (fun _ => false)).2 (Config.default Prefs.defaults)
      (Job.mk (str "o") (str "d")
        [Video.mk (DateTime.mk 2020 1 1 0 0 0) (str "video 1")
          [Clip.mk 300 0 (str "intro")] 0])
      (by decide) (by decide)⟩

/-- C9: resolving the command-line configuration never mutates the given
preferences: on any successful run of the heap-model `Config.from_argv`, the
preferences' `Replace` object is unchanged in the store, and the resolved
config's replacement map is a distinct object (never an alias), so every
`-r` addition, overwrite or reset touches only the config's copy. -/
theorem c9_from_argv_never_mutates_prefs (argv : List Str) (prefs : PrefsH)
    (st : ReplaceStore) (out : ConfigH × ReplaceStore)
    (hlt : prefs.filename_replace < st.length)
    (hok : fromArgvH argv prefs st = .ok out) :
    storeGet out.2 prefs.filename_replace = storeGet st prefs.filename_replace
    ∧ ¬ out.1.filename_replace = prefs.filename_replace := by
  cases hg : getopt (argv.drop 1) with
  | error e =>
    have hcontra : fromArgvH argv prefs st = .error e := by
      unfold fromArgvH
      rw [hg]
    rw [hcontra] at hok
    exact Except.noConfusion hok
  | ok pr =>
    obtain ⟨opts, args⟩ := pr
    have hunfold : fromArgvH argv prefs st
        = match subcommandStageH (ConfigH.defaultH prefs st).1 args with
          | .error e => .error e
          | .ok config' =>
            applyOptsH prefs opts config' (ConfigH.defaultH prefs st).2 := by
      unfold fromArgvH
      rw [hg]
    rw [hunfold] at hok
    cases hstage : subcommandStageH (ConfigH.defaultH prefs st).1 args with
    | error e =>
      rw [hstage] at hok
      exact Except.noConfusion hok
    | ok config' =>
      rw [hstage] at hok
      have hrefd : (ConfigH.defaultH prefs st).1.filename_replace
          = st.length := rfl
      have href : config'.filename_replace = st.length :=
        (subcommandStageH_ref _ _ _ hstage).trans hrefd
      have hne : ¬ config'.filename_replace = prefs.filename_replace := by
        rw [href]
        omega
      have hlt1 : prefs.filename_replace
          < (ConfigH.defaultH prefs st).2.length := by
        simp only [ConfigH.defaultH, List.length_append,
          List.length_singleton]
        omega
      obtain ⟨h1, h2, _⟩ := applyOptsH_frame prefs opts config'
        (ConfigH.defaultH prefs st).2 out hok hlt1 hne
      refine ⟨h1.trans ?_, h2⟩
      exact storeGet_append_lt st _ _ hlt

/-- C9 witness: the frame theorem applied to a concrete run that both adds a
`-r` mapping (mutating the config's copy in place) and can be checked: the
preferences' object at index 0 is untouched. -/
theorem c9_witness :
    0 < ([[(str "x", str "y")]] : ReplaceStore).length
    ∧ fromArgvH [str "prog", str "-r", str "a=b"]
        { filename_replace := 0 } [[(str "x", str "y")]]
      = .ok (ConfigH.mk (str "clip.yaml") 1 (str ".") (str "mkv") (str ".")
          (str "mkv") (str "%Y-%m-%d %H-%M-%S") Subcommand.HELP,
        [[(str "x", str "y")], [(str "x", str "y"), (str "a", str "b")]])
    ∧ storeGet [[(str "x", str "y")],
        [(str "x", str "y"), (str "a", str "b")]] 0
      = storeGet [[(str "x", str "y")]] 0 :=
  ⟨by decide, by rfl,
    (c9_from_argv_never_mutates_prefs [str "prog", str "-r", str "a=b"]
      { filename_replace := 0 } [[(str "x", str "y")]] _
      (by decide) rfl).1⟩

/-- C6 counterexample: a whitespace-only title is empty after trimming, yet
`Clip.from_dict` accepts it — the code checks emptiness of the raw title
without trimming. -/
theorem c6_counterexample_whitespace_title :
    strip (str " ") = []
    ∧ isOkE (Clip.from_dict [(str "time", Untyped.s (str "0:00 - 5:00")),
        (str "title", Untyped.s (str " "))]) = true := by decide

/-- C6 (amended): `Clip.from_dict` fails exactly when the `time` or `title`
field is missing, the time value does not split on a `-` into two halves
that both parse as durations, the parsed end is not strictly greater than
the parsed start, or the title is the empty string (no trimming — a
whitespace-only title is accepted); on success the clip satisfies
`end > start` and has a non-empty (though possibly whitespace) title. -/
theorem c6_clip_from_dict_validation (data : UMap) :
    isOkE (Clip.from_dict data) = clipDocAccepted data
    ∧ (∀ c, Clip.from_dict data = .ok c →
        c.startT < c.endT ∧ ¬ c.title = []) := by
  constructor
  · unfold Clip.from_dict clipDocAccepted
    cases h1 : umLookup data (str "title") with
    | none => cases h2 : umLookup data (str "time") <;> rfl
    | some titleV =>
      cases h2 : umLookup data (str "time") with
      | none => rfl
      | some timeV => exact clipFromFields_isOk titleV timeV
  · intro c hc
    unfold Clip.from_dict at hc
    cases h1 : umLookup data (str "title") with
    | none =>
      rw [h1] at hc
      cases h2 : umLookup data (str "time") <;> rw [h2] at hc <;>
        exact Except.noConfusion hc
    | some titleV =>
      rw [h1] at hc
      cases h2 : umLookup data (str "time") with
      | none => rw [h2] at hc; exact Except.noConfusion hc
      | some timeV =>
        rw [h2] at hc
        exact clipFromFields_ok titleV timeV c hc

/-- C6 witness: the characterization applied to a concrete accepted
document, with the success postconditions instantiated. -/
theorem c6_witness :
    isOkE (Clip.from_dict [(str "time", Untyped.s (str "0:00 - 5:00")),
        (str "title", Untyped.s (str "intro"))])
      = clipDocAccepted [(str "time", Untyped.s (str "0:00 - 5:00")),
        (str "title", Untyped.s (str "intro"))]
    ∧ ((0 : Int) < 300 ∧ ¬ (str "intro") = []) :=
  ⟨(c6_clip_from_dict_validation
      [(str "time", Untyped.s (str "0:00 - 5:00")),
       (str "title", Untyped.s (str "intro"))]).1,
   (c6_clip_from_dict_validation
      [(str "time", Untyped.s (str "0:00 - 5:00")),
       (str "title", Untyped.s (str "intro"))]).2
     (Clip.mk 300 0 (str "intro")) (by decide)⟩

/-- C7 counterexample: a job document with no `videos` key at all is
accepted — `data.get("videos", [])` defaults to the empty list — so the
claim's "requires a videos list" fails. -/
theorem c7_counterexample_videos_optional :
    Job.from_dict (Config.default Prefs.defaults) []
      = .ok (Job.mk (str ".") (str ".") []) := by decide

/-- C7 (amended): `Job.from_dict` treats `videos` as optional, defaulting to
the empty list when absent; when present it must be a list of maps (each
parsed as a video document), otherwise a ValidationError; `output-dir` and
`video-dir` take the document's values when present and the config's values
when absent. -/
theorem c7_job_from_dict (config : Config) (data : UMap) :
    (umLookup data (str "videos") = none →
      Job.from_dict config data
        = .ok (Job.mk (jobOutputDir config data) (jobVideoDir config data) []))
    ∧ (∀ u, umLookup data (str "videos") = some u → asMapList u = none →
        Job.from_dict config data = .error (str "invalid videos"))
    ∧ (∀ u ms vs, umLookup data (str "videos") = some u →
        asMapList u = some ms → videosFromDicts ms = .ok vs →
        Job.from_dict config data
          = .ok (Job.mk (jobOutputDir config data) (jobVideoDir config data) vs))
    ∧ (∀ j, Job.from_dict config data = .ok j →
        j.output_dir = jobOutputDir config data
        ∧ j.video_dir = jobVideoDir config data) := by
  refine ⟨?_, ?_, ?_, ?_⟩
  · intro h
    have hd : jobVideosDocs data = .ok [] := by
      unfold jobVideosDocs
      rw [h]
    unfold Job.from_dict
    rw [hd]
    rfl
  · intro u hu hn
    have hd : jobVideosDocs data = .error (str "invalid videos") := by
      unfold jobVideosDocs
      rw [hu]
      dsimp only
      rw [hn]
    unfold Job.from_dict
    rw [hd]
  · intro u ms vs hu hm hv
    have hd : jobVideosDocs data = .ok ms := by
      unfold jobVideosDocs
      rw [hu]
      dsimp only
      rw [hm]
    unfold Job.from_dict
    rw [hd]
    dsimp only
    rw [hv]
  · intro j hj
    unfold Job.from_dict at hj
    cases hd : jobVideosDocs data with
    | error e => rw [hd] at hj; exact Except.noConfusion hj
    | ok ms =>
      rw [hd] at hj
      dsimp only at hj
      cases hv : videosFromDicts ms with
      | error e => rw [hv] at hj; exact Except.noConfusion hj
      | ok vs =>
        rw [hv] at hj
        cases hj
        exact ⟨rfl, rfl⟩

/-- C7 witness: a document with one valid video entry and an explicit
`output-dir` resolves the directories per the rule and parses the video. -/
theorem c7_witness :
    Job.from_dict (Config.default Prefs.defaults)
        [(str "output-dir", Untyped.s (str "o")),
         (str "videos", Untyped.list
           [Untyped.map [(str "date", Untyped.s (str "2020-01-01T00:00:00")),
             (str "title", Untyped.s (str "video 1"))]])]
      = .ok (Job.mk (str "o") (str ".")
          [Video.mk (DateTime.mk 2020 1 1 0 0 0) (str "video 1") [] 0]) :=
  (c7_job_from_dict (Config.default Prefs.defaults)
    [(str "output-dir", Untyped.s (str "o")),
     (str "videos", Untyped.list
       [Untyped.map [(str "date", Untyped.s (str "2020-01-01T00:00:00")),
         (str "title", Untyped.s (str "video 1"))]])]).2.2.1
    (Untyped.list
      [Untyped.map [(str "date", Untyped.s (str "2020-01-01T00:00:00")),
        (str "title", Untyped.s (str "video 1"))]])
    [[(str "date", Untyped.s (str "2020-01-01T00:00:00")),
      (str "title", Untyped.s (str "video 1"))]]
    [Video.mk (DateTime.mk 2020 1 1 0 0 0) (str "video 1") [] 0]
    rfl rfl (by decide)

/-- C4 witness: the default configuration satisfies the lowercase-side
conditions, and a concrete generated filename is fully lower-cased. -/
theorem c4_witness :
    (∀ kv ∈ (Config.default Prefs.defaults).filename_replace, NoUpper kv.2)
    ∧ NoUpper (Config.default Prefs.defaults).output_ext
    ∧ NoUpper (Clip.path_str ⟨300, 0, str "intro"⟩ (Config.default Prefs.defaults)
        ⟨2020, 1, 1, 0, 0, 0⟩ 0 (str "video 1")) :=
  ⟨by decide, by decide,
    (c4_path_str_deterministic_and_lowercase ⟨300, 0, str "intro"⟩
      (Config.default Prefs.defaults) ⟨2020, 1, 1, 0, 0, 0⟩ 0 (str "video 1")
      (by decide) (by decide)).2⟩

end Mvcs
